import Mathlib

set_option maxRecDepth 1000000

/-!
Verification of the agent_coder CLI (src/main.go): a shallow embedding of the
program's prompt-to-filesystem materialization pipeline, its flag handling,
and the surrounding control flow, together with theorems checking the
natural-language specification against this embedding.

The embedding models:
  - strings.TrimSpace (Go unicode white space),
  - encoding/json unmarshalling into a slice of File structs
    (missing object keys leave the zero value; null is a no-op;
    type mismatches make Unmarshal return an error; keys match
    struct tags case-insensitively; duplicate keys are processed in order),
  - path/filepath Clean, Join and Dir (lexical path processing),
  - os.MkdirAll / os.WriteFile against a filesystem map plus an
    I/O-failure oracle carried by the environment,
  - the flag package's parsing of string flags with ExitOnError,
  - the top-level control flow of main, with the remote generator as an
    oracle in the environment.
-/

namespace AC

/-- The File struct of src/main.go: json tags file_name / source_code. -/
structure File where
  name : String
  code : String
deriving DecidableEq, Repr

/-! ## Go strings.TrimSpace -/

/-- Go unicode.IsSpace: the Unicode White_Space property. -/
def goIsSpace (c : Char) : Bool :=
  c = '\t' || c = '\n' || c = '\x0b' || c = '\x0c' || c = '\r' || c = ' ' ||
  c.val = 0x85 || c.val = 0xA0 || c.val = 0x1680 ||
  (0x2000 ≤ c.val && c.val ≤ 0x200A) ||
  c.val = 0x2028 || c.val = 0x2029 || c.val = 0x202F || c.val = 0x205F ||
  c.val = 0x3000

/-- Drop trailing white space characters. -/
def trimRightList (l : List Char) : List Char :=
  (l.reverse.dropWhile goIsSpace).reverse

/-- Go strings.TrimSpace: drop leading and trailing Unicode white space. -/
def goTrimSpace (s : String) : String :=
  String.mk (trimRightList (s.data.dropWhile goIsSpace))

/-! ## JSON values and the encoding/json syntax accepted by Unmarshal -/

/-- A parsed JSON value. Numbers keep their raw spelling: the program never
uses a numeric value, only its shape. -/
inductive JValue where
  | jnull
  | jbool (b : Bool)
  | jnum (raw : String)
  | jstr (s : String)
  | jarr (elems : List JValue)
  | jobj (fields : List (String × JValue))

/-- JSON insignificant white space (space, tab, newline, carriage return). -/
def jsonWS (c : Char) : Bool := c = ' ' || c = '\t' || c = '\n' || c = '\r'

def skipWS (l : List Char) : List Char := l.dropWhile jsonWS

def hexVal (c : Char) : Option Nat :=
  if '0' ≤ c ∧ c ≤ '9' then some (c.toNat - '0'.toNat)
  else if 'a' ≤ c ∧ c ≤ 'f' then some (c.toNat - 'a'.toNat + 10)
  else if 'A' ≤ c ∧ c ≤ 'F' then some (c.toNat - 'A'.toNat + 10)
  else none

def hex4 (a b c d : Char) : Option Nat := do
  let x ← hexVal a
  let y ← hexVal b
  let z ← hexVal c
  let w ← hexVal d
  pure (((x * 16 + y) * 16 + z) * 16 + w)

/-- Single-character escapes accepted inside JSON strings. -/
def escChar (c : Char) : Option Char :=
  if c = '"' then some '"'
  else if c = '\\' then some '\\'
  else if c = '/' then some '/'
  else if c = 'b' then some '\x08'
  else if c = 'f' then some '\x0c'
  else if c = 'n' then some '\n'
  else if c = 'r' then some '\r'
  else if c = 't' then some '\t'
  else none

/-- Body of a JSON string after the opening quote, as Go's scanner and
unquoter treat it: control characters are rejected, surrogate pairs in
backslash-u escapes are combined, lone surrogates become U+FFFD. Returns the
decoded characters and the input after the closing quote. Fuelled structural
recursion; every step consumes at least one input character, so fuel equal
to the input length plus one (what every call site passes) is sufficient. -/
def parseStringBodyF : Nat → List Char → Option (List Char × List Char)
  | 0, _ => none
  | _, [] => none
  | _ + 1, '"' :: rest => some ([], rest)
  | fuel + 1, '\\' :: 'u' :: a :: b :: c :: d :: rest =>
    match hex4 a b c d with
    | none => none
    | some n =>
      if 0xD800 ≤ n ∧ n ≤ 0xDBFF then
        match rest with
        | '\\' :: 'u' :: a2 :: b2 :: c2 :: d2 :: rest2 =>
          match hex4 a2 b2 c2 d2 with
          | some m =>
            if 0xDC00 ≤ m ∧ m ≤ 0xDFFF then
              (parseStringBodyF fuel rest2).map (fun p =>
                (Char.ofNat (0x10000 + (n - 0xD800) * 0x400 + (m - 0xDC00)) :: p.1, p.2))
            else
              (parseStringBodyF fuel ('\\' :: 'u' :: a2 :: b2 :: c2 :: d2 :: rest2)).map
                (fun p => ('�' :: p.1, p.2))
          | none =>
            (parseStringBodyF fuel ('\\' :: 'u' :: a2 :: b2 :: c2 :: d2 :: rest2)).map
              (fun p => ('�' :: p.1, p.2))
        | _ => (parseStringBodyF fuel rest).map (fun p => ('�' :: p.1, p.2))
      else if 0xDC00 ≤ n ∧ n ≤ 0xDFFF then
        (parseStringBodyF fuel rest).map (fun p => ('�' :: p.1, p.2))
      else
        (parseStringBodyF fuel rest).map (fun p => (Char.ofNat n :: p.1, p.2))
  | fuel + 1, '\\' :: e :: rest =>
    match escChar e with
    | some c => (parseStringBodyF fuel rest).map (fun p => (c :: p.1, p.2))
    | none => none
  | fuel + 1, c :: rest =>
    if 0x20 ≤ c.val then (parseStringBodyF fuel rest).map (fun p => (c :: p.1, p.2))
    else none

/-- String body parse with always-sufficient fuel. -/
def parseStringBody (l : List Char) : Option (List Char × List Char) :=
  parseStringBodyF (l.length + 1) l

def digitSpan (l : List Char) : List Char × List Char :=
  (l.takeWhile Char.isDigit, l.dropWhile Char.isDigit)

/-- Integer part of a JSON number: 0, or a nonzero digit followed by digits. -/
def parseIntPart : List Char → Option (List Char × List Char)
  | '0' :: rest => some (['0'], rest)
  | c :: rest =>
    if c.isDigit then
      let (ds, r) := digitSpan rest
      some (c :: ds, r)
    else none
  | [] => none

/-- Optional fraction part: a dot followed by at least one digit. -/
def parseFracPart : List Char → List Char × List Char
  | '.' :: c :: rest =>
    if c.isDigit then
      let (ds, r) := digitSpan rest
      ('.' :: c :: ds, r)
    else ([], '.' :: c :: rest)
  | l => ([], l)

/-- Optional exponent part: e or E, optional sign, at least one digit. -/
def parseExpPart : List Char → List Char × List Char
  | e :: rest =>
    if e = 'e' ∨ e = 'E' then
      match rest with
      | s :: rest2 =>
        if s = '+' ∨ s = '-' then
          match rest2 with
          | c :: rest3 =>
            if c.isDigit then
              let (ds, r) := digitSpan rest3
              (e :: s :: c :: ds, r)
            else ([], e :: rest)
          | [] => ([], e :: rest)
        else if s.isDigit then
          let (ds, r) := digitSpan rest
          (e :: s :: ds, r)
        else ([], e :: rest)
      | [] => ([], [e])
    else ([], e :: rest)
  | [] => ([], [])

def parseNumberL (l : List Char) : Option (List Char × List Char) :=
  match l with
  | '-' :: rest =>
    (parseIntPart rest).map (fun p =>
      let (f, r1) := parseFracPart p.2
      let (x, r2) := parseExpPart r1
      ('-' :: (p.1 ++ f ++ x), r2))
  | _ =>
    (parseIntPart l).map (fun p =>
      let (f, r1) := parseFracPart p.2
      let (x, r2) := parseExpPart r1
      (p.1 ++ f ++ x, r2))

mutual

/-- Parse one JSON value, skipping leading white space. Fuelled recursion;
the fuel chosen at top level is always sufficient. -/
def parseValueF : Nat → List Char → Option (JValue × List Char)
  | 0, _ => none
  | fuel + 1, l =>
    match skipWS l with
    | 'n' :: 'u' :: 'l' :: 'l' :: rest => some (.jnull, rest)
    | 't' :: 'r' :: 'u' :: 'e' :: rest => some (.jbool true, rest)
    | 'f' :: 'a' :: 'l' :: 's' :: 'e' :: rest => some (.jbool false, rest)
    | '"' :: rest => (parseStringBody rest).map (fun p => (.jstr (String.mk p.1), p.2))
    | '[' :: rest => (parseArrayF fuel (skipWS rest)).map (fun p => (.jarr p.1, p.2))
    | '{' :: rest => (parseObjectF fuel (skipWS rest)).map (fun p => (.jobj p.1, p.2))
    | c :: rest => (parseNumberL (c :: rest)).map (fun p => (.jnum (String.mk p.1), p.2))
    | [] => none

/-- After an opening bracket (white space skipped): a closing bracket or the
first element. -/
def parseArrayF : Nat → List Char → Option (List JValue × List Char)
  | 0, _ => none
  | fuel + 1, l =>
    match l with
    | ']' :: rest => some ([], rest)
    | _ =>
      match parseValueF fuel l with
      | none => none
      | some (v, r) => (parseArrayTailF fuel (skipWS r)).map (fun p => (v :: p.1, p.2))

/-- After an element: a comma and the next element, or the closing bracket. -/
def parseArrayTailF : Nat → List Char → Option (List JValue × List Char)
  | 0, _ => none
  | fuel + 1, l =>
    match l with
    | ']' :: rest => some ([], rest)
    | ',' :: rest =>
      match parseValueF fuel rest with
      | none => none
      | some (v, r) => (parseArrayTailF fuel (skipWS r)).map (fun p => (v :: p.1, p.2))
    | _ => none

/-- After an opening brace (white space skipped): a closing brace or the
members. -/
def parseObjectF : Nat → List Char → Option (List (String × JValue) × List Char)
  | 0, _ => none
  | fuel + 1, l =>
    match l with
    | '}' :: rest => some ([], rest)
    | _ => parseMembersF fuel l

/-- One or more members: a quoted key, a colon, a value, then a comma and
further members or the closing brace. -/
def parseMembersF : Nat → List Char → Option (List (String × JValue) × List Char)
  | 0, _ => none
  | fuel + 1, l =>
    match l with
    | '"' :: rest =>
      match parseStringBody rest with
      | none => none
      | some (k, r1) =>
        match skipWS r1 with
        | ':' :: r2 =>
          match parseValueF fuel r2 with
          | none => none
          | some (v, r3) =>
            match skipWS r3 with
            | ',' :: r4 => (parseMembersF fuel (skipWS r4)).map
                (fun p => ((String.mk k, v) :: p.1, p.2))
            | '}' :: r4 => some ([(String.mk k, v)], r4)
            | _ => none
        | _ => none
    | _ => none

end

/-- Parse a whole JSON text: one value, then only white space may remain
(Go's Unmarshal rejects trailing data). -/
def jsonParse (s : String) : Option JValue :=
  match parseValueF (2 * s.data.length + 4) s.data with
  | some (v, rest) => if skipWS rest = [] then some v else none
  | none => none

/-! ## Decoding a JValue into a slice of File, as encoding/json does -/

def asciiFold (c : Char) : Char :=
  if 'A' ≤ c ∧ c ≤ 'Z' then Char.ofNat (c.toNat + 32) else c

/-- Struct-field key matching: encoding/json accepts an exact or a
case-insensitive match of the json tag. -/
def keyMatches (k field : String) : Bool :=
  k.data.map asciiFold = field.data.map asciiFold

/-- Fold an object's members into a File struct, later keys overwriting
earlier ones. A null value leaves the field unchanged; a value of any other
non-string type is an UnmarshalTypeError, which makes Unmarshal return an
error. Unknown keys are ignored. -/
def decodeFields : List (String × JValue) → File → Option File
  | [], acc => some acc
  | (k, v) :: rest, acc =>
    match keyMatches k "file_name", keyMatches k "source_code", v with
    | true, _, .jstr s => decodeFields rest { acc with name := s }
    | true, _, .jnull => decodeFields rest acc
    | true, _, _ => none
    | false, true, .jstr s => decodeFields rest { acc with code := s }
    | false, true, .jnull => decodeFields rest acc
    | false, true, _ => none
    | false, false, _ => decodeFields rest acc

/-- Decode one array element into a File: an object decodes field by field
starting from the zero value (missing keys keep ""), null is a no-op giving
the zero value, anything else is a type error. -/
def decodeFile : JValue → Option File
  | .jnull => some { name := "", code := "" }
  | .jobj fields => decodeFields fields { name := "", code := "" }
  | _ => none

def decodeList : List JValue → Option (List File)
  | [] => some []
  | x :: rest =>
    match decodeFile x with
    | none => none
    | some f => (decodeList rest).map (fun fs => f :: fs)

/-- Decode the top-level value into a slice of File: an array decodes
elementwise, null leaves the nil slice (no error), anything else is a type
error. -/
def decodeFiles : JValue → Option (List File)
  | .jnull => some []
  | .jarr xs => decodeList xs
  | _ => none

/-- json.Unmarshal(data, &files) for files of type slice of File, observed
through the program's err == nil check: some on success, none on any
syntax or type error. -/
def goUnmarshalFiles (s : String) : Option (List File) :=
  (jsonParse s).bind decodeFiles

/-! ## path/filepath: Clean, Join, Dir (unix separator) -/

def splitSlashAux (acc : List Char) : List Char → List (List Char)
  | [] => [acc.reverse]
  | c :: rest =>
    if c = '/' then acc.reverse :: splitSlashAux [] rest
    else splitSlashAux (c :: acc) rest

/-- Split a path into segments at every separator, keeping empty segments. -/
def splitSlash (l : List Char) : List (List Char) := splitSlashAux [] l

/-- The element loop of filepath.Clean: drop empty and dot segments, resolve
dotdot segments by popping (or, when not rooted and nothing is poppable, by
keeping them). The accumulator holds the output segments in reverse. -/
def cleanSegs (rooted : Bool) (acc : List (List Char)) : List (List Char) → List (List Char)
  | [] => acc.reverse
  | p :: ps =>
    if p = [] ∨ p = ['.'] then cleanSegs rooted acc ps
    else if p = ['.', '.'] then
      match acc with
      | [] => if rooted then cleanSegs rooted [] ps else cleanSegs rooted [['.', '.']] ps
      | a :: rest =>
        if a = ['.', '.'] then cleanSegs rooted (p :: acc) ps
        else cleanSegs rooted rest ps
    else cleanSegs rooted (p :: acc) ps

def joinSegs : List (List Char) → List Char
  | [] => []
  | [p] => p
  | p :: ps => p ++ '/' :: joinSegs ps

/-- filepath.Clean. -/
def filepathCleanL (l : List Char) : List Char :=
  match l with
  | [] => ['.']
  | c :: _ =>
    let rooted := c = '/'
    let segs := cleanSegs rooted [] (splitSlash l)
    if rooted then '/' :: joinSegs segs
    else if segs = [] then ['.'] else joinSegs segs

def filepathClean (s : String) : String := String.mk (filepathCleanL s.data)

/-- filepath.Join of two elements: empty elements are dropped, the rest are
joined with a separator, and the result is Cleaned; all-empty input gives
the empty string. -/
def filepathJoin (a b : String) : String :=
  match a.data, b.data with
  | [], [] => ""
  | [], lb => String.mk (filepathCleanL lb)
  | la, [] => String.mk (filepathCleanL la)
  | la, lb => String.mk (filepathCleanL (la ++ '/' :: lb))

/-- The prefix of a path up to and including its last separator. -/
def dirPrefixL (l : List Char) : List Char :=
  (l.reverse.dropWhile (fun c => c ≠ '/')).reverse

/-- filepath.Dir: everything before the final element, Cleaned. -/
def filepathDir (s : String) : String :=
  String.mk (filepathCleanL (dirPrefixL s.data))

/-! ## Filesystem model and the I/O environment -/

/-- All directories created by os.MkdirAll(p): every prefix of p at a
separator boundary, including p itself. -/
def prefixJoins : List (List Char) → List (List Char)
  | [] => []
  | p :: ps => p :: (prefixJoins ps).map (fun q => p ++ '/' :: q)

def dirChain (p : String) : List String :=
  ((prefixJoins (splitSlash p.data)).map String.mk).filter (fun q => ¬ q = "")

def lookupAssoc : List (String × String) → String → Option String
  | [], _ => none
  | (q, d) :: rest, p => if q = p then some d else lookupAssoc rest p

def updateAssoc : List (String × String) → String → String → List (String × String)
  | [], p, c => [(p, c)]
  | (q, d) :: rest, p, c =>
    if q = p then (p, c) :: rest else (q, d) :: updateAssoc rest p c

/-- The filesystem as the program observes it: file contents by path, plus
the set (as a list) of directories known to exist. -/
structure FS where
  files : List (String × String)
  dirs : List String
deriving DecidableEq, Repr

def fsLookup (fs : FS) (p : String) : Option String := lookupAssoc fs.files p

/-- os.WriteFile: create the file or truncate and overwrite it in full. -/
def fsWrite (fs : FS) (p c : String) : FS :=
  { fs with files := updateAssoc fs.files p c }

/-- os.MkdirAll: the directory and all missing parents come to exist. -/
def fsMkdirAll (fs : FS) (p : String) : FS :=
  { fs with dirs := dirChain p ++ fs.dirs }

/-- The response returned by the generative model SDK. -/
inductive Part where
  | text (s : String)
  | blob (mime : String) (dataB64 : String)
  | functionCall (name : String) (args : String)
deriving DecidableEq, Repr

structure Content where
  parts : List Part
deriving DecidableEq, Repr

structure Candidate where
  content : Content
deriving DecidableEq, Repr

structure GenResponse where
  candidates : List Candidate
deriving DecidableEq, Repr

/-- The externals of one run: client construction, one line of standard
input, the remote generator as a function of the instruction sent, and
per-path I/O failure oracles carrying the error text (none = success). -/
structure Env where
  clientErr : Option String
  stdinLine : String
  genResult : String → Except String GenResponse
  mkdirErr : String → Option String
  writeErr : String → Option String

/-- Everything the program prints, one constructor per fmt call site. -/
inductive Msg where
  | flagError (e : String)
  | apiKeyRequired
  | clientError (e : String)
  | promptCue
  | genError (e : String)
  | noResponse
  | apiResponse (pretty : String)
  | parsedCount (n : Nat)
  | outputDirError (e : String)
  | dirError (name e : String)
  | writeError (name e : String)
  | fileWritten (idx : Nat) (name path : String)
  | allWritten (dir : String)
deriving DecidableEq, Repr

/-- The exact text of each message as the fmt format strings produce it. -/
def renderMsg : Msg → String
  | .flagError e => e
  | .apiKeyRequired => "API key is required"
  | .clientError e => "Error creating client: " ++ e
  | .promptCue => "Enter your prompt: "
  | .genError e => "Error generating content: " ++ e
  | .noResponse => "No response received"
  | .apiResponse p => "\nAPI Response:\n" ++ p
  | .parsedCount n => "\nSuccessfully parsed " ++ toString n ++ " file(s)"
  | .outputDirError e => "Error creating output directory: " ++ e
  | .dirError n e => "Error creating directory for " ++ n ++ ": " ++ e
  | .writeError n e => "Error writing file " ++ n ++ ": " ++ e
  | .fileWritten i n p => "\nFile " ++ toString i ++ ": " ++ n ++ " written to " ++ p
  | .allWritten d => "\nAll files have been written to the '" ++ d ++ "' directory"

/-! ## The Response Materializer: lines 103-136 of src/main.go -/

/-- The loop body for one record i: join the path, make its directory,
write the file; on either failure print the error and continue. -/
def writeRecords (outputDir : String) (env : Env) : FS → Nat → List File → FS × List Msg
  | fs, _, [] => (fs, [])
  | fs, i, f :: rest =>
    let fullPath := filepathJoin outputDir f.name
    let dir := filepathDir fullPath
    match env.mkdirErr dir with
    | some e =>
      let (fs2, log2) := writeRecords outputDir env fs (i + 1) rest
      (fs2, Msg.dirError f.name e :: log2)
    | none =>
      let fs1 := fsMkdirAll fs dir
      match env.writeErr fullPath with
      | some e =>
        let (fs2, log2) := writeRecords outputDir env fs1 (i + 1) rest
        (fs2, Msg.writeError f.name e :: log2)
      | none =>
        let fs2 := fsWrite fs1 fullPath f.code
        let (fs3, log3) := writeRecords outputDir env fs2 (i + 1) rest
        (fs3, Msg.fileWritten (i + 1) f.name fullPath :: log3)

/-- What follows the err == nil check on the unmarshal result: on failure
the program silently does nothing; on success it reports the parse count,
creates the output directory (aborting on failure) and runs the loop. -/
def materializeParsed (outputDir : String) (env : Env) (fs : FS) :
    Option (List File) → FS × List Msg
  | none => (fs, [])
  | some files =>
    match env.mkdirErr outputDir with
    | some e => (fs, [Msg.parsedCount files.length, Msg.outputDirError e])
    | none =>
      let fs1 := fsMkdirAll fs outputDir
      let (fs2, log2) := writeRecords outputDir env fs1 0 files
      (fs2, Msg.parsedCount files.length :: (log2 ++ [Msg.allWritten outputDir]))

/-- The Response Materializer: trim the response text, attempt to
unmarshal it, and write the parsed records. -/
def materialize (outputDir : String) (env : Env) (fs : FS) (responseText : String) :
    FS × List Msg :=
  materializeParsed outputDir env fs (goUnmarshalFiles (goTrimSpace responseText))

/-! ## The flag package: parsing of string flags with ExitOnError -/

/-- Split a flag name at the first equals sign, if any. -/
def splitAtEq : List Char → List Char × Option (List Char)
  | [] => ([], none)
  | '=' :: rest => ([], some rest)
  | c :: rest =>
    let (a, b) := splitAtEq rest
    (c :: a, b)

/-- flag.Parse over an argument list, given the names of the defined string
flags: returns the assignments in order, or the error that makes
ExitOnError terminate the process. Parsing stops at the first non-flag
argument or at a bare double minus. -/
def parseFlagArgs (defined : List String) : List String → Except String (List (String × String))
  | [] => .ok []
  | s :: rest =>
    match s.data with
    | '-' :: c2 :: nameTail =>
      if c2 = '-' ∧ nameTail = [] then .ok []
      else
        match (if c2 = '-' then nameTail else c2 :: nameTail) with
        | [] => .ok []
        | n0 :: ns =>
          if n0 = '-' ∨ n0 = '=' then .error ("bad flag syntax: " ++ s)
          else
            let (nm, veq) := splitAtEq (n0 :: ns)
            let name := String.mk nm
            if defined.contains name then
              match veq with
              | some v =>
                (parseFlagArgs defined rest).map (fun rs => (name, String.mk v) :: rs)
              | none =>
                match rest with
                | v :: rest2 =>
                  (parseFlagArgs defined rest2).map (fun rs => (name, v) :: rs)
                | [] => .error ("flag needs an argument: -" ++ name)
            else if name = "help" ∨ name = "h" then .error "flag: help requested"
            else .error ("flag provided but not defined: -" ++ name)
    | _ => .ok []

/-- The value a flag pointer holds after parsing: the last assignment, or
the default. -/
def flagValue (assigns : List (String × String)) (name deflt : String) : String :=
  match assigns with
  | [] => deflt
  | (k, v) :: rest => if k = name then flagValue rest name v else flagValue rest name deflt

/-! ## The top-level control flow of main -/

inductive Outcome where
  | normal
  | flagExit
  | crashed
deriving DecidableEq, Repr

structure RunResult where
  fs : FS
  log : List Msg
  outcome : Outcome
deriving DecidableEq, Repr

/-- The fixed framing text prefixed to the user's prompt. -/
def instructionFor (prompt : String) : String :=
  "Based on the following request, generate the necessary code files:\n\n" ++ prompt

def hexDigit (n : Nat) : Char :=
  if n < 10 then Char.ofNat (48 + n) else Char.ofNat (87 + n)

/-- encoding/json string quoting (with its default HTML escaping), used by
MarshalIndent when pretty-printing the response part. -/
def jsonQuoteChar (c : Char) : List Char :=
  if c = '"' then ['\\', '"']
  else if c = '\\' then ['\\', '\\']
  else if c = '\n' then ['\\', 'n']
  else if c = '\r' then ['\\', 'r']
  else if c = '\t' then ['\\', 't']
  else if c.val < 0x20 then ['\\', 'u', '0', '0', hexDigit (c.toNat / 16), hexDigit (c.toNat % 16)]
  else if c = '<' then ['\\', 'u', '0', '0', '3', 'c']
  else if c = '>' then ['\\', 'u', '0', '0', '3', 'e']
  else if c = '&' then ['\\', 'u', '0', '0', '2', '6']
  else [c]

def jsonQuote (s : String) : String :=
  String.mk ('"' :: ((s.data.map jsonQuoteChar).flatten ++ ['"']))

/-- json.MarshalIndent of the first response part: a genai.Text marshals as
a JSON string; the other part kinds marshal as objects. -/
def prettyPart : Part → String
  | .text s => jsonQuote s
  | .blob m d =>
    "\x7b\n  \"MIMEType\": " ++ jsonQuote m ++ ",\n  \"Data\": " ++ jsonQuote d ++ "\n\x7d"
  | .functionCall n a =>
    "\x7b\n  \"Name\": " ++ jsonQuote n ++ ",\n  \"Args\": " ++ a ++ "\n\x7d"

/-- resp.Candidates[0].Content.Parts[0] behind the emptiness check. -/
def firstPart (r : GenResponse) : Option Part :=
  match r.candidates with
  | [] => none
  | c :: _ =>
    match c.content.parts with
    | [] => none
    | p :: _ => some p

/-- The whole of main: flag handling, the key check, client construction,
the prompt read, the API call, the response checks, pretty printing, the
unchecked type assertion to genai.Text, and materialization. The -output
flag is registered only after the first flag.Parse, and outputDir is the
immediate dereference of the fresh flag pointer, so it always holds the
default "output"; the second flag.Parse cannot fail after the first one
succeeded and its result is never read. -/
def runMain (args : List String) (env : Env) (fs : FS) : RunResult :=
  match parseFlagArgs ["key"] args with
  | .error e => { fs := fs, log := [Msg.flagError e], outcome := .flagExit }
  | .ok assigns =>
    let apiKey := flagValue assigns "key" ""
    if apiKey = "" then { fs := fs, log := [Msg.apiKeyRequired], outcome := .normal }
    else
      let outputDir := "output"
      match env.clientErr with
      | some e => { fs := fs, log := [Msg.clientError e], outcome := .normal }
      | none =>
        match env.genResult (instructionFor env.stdinLine) with
        | .error e => { fs := fs, log := [Msg.promptCue, Msg.genError e], outcome := .normal }
        | .ok resp =>
          match firstPart resp with
          | none => { fs := fs, log := [Msg.promptCue, Msg.noResponse], outcome := .normal }
          | some p =>
            let pretty := prettyPart p
            match p with
            | .text jsonData =>
              let (fs2, log2) := materialize outputDir env fs jsonData
              { fs := fs2, log := [Msg.promptCue, Msg.apiResponse pretty] ++ log2,
                outcome := .normal }
            | _ =>
              { fs := fs, log := [Msg.promptCue, Msg.apiResponse pretty], outcome := .crashed }

/-! ## Derived notions used by the statements -/

/-- An environment in which no directory creation and no file write fails. -/
def noFailures (env : Env) : Prop :=
  (∀ p, env.mkdirErr p = none) ∧ (∀ p, env.writeErr p = none)

/-- The (name, path) pairs of the per-file confirmation messages, in print
order: one per successfully written file. -/
def writtenEntry : Msg → Option (String × String)
  | .fileWritten _ n p => some (n, p)
  | _ => none

def writtenPaths (log : List Msg) : List (String × String) := log.filterMap writtenEntry

/-- Whether the record's own directory creation and write both succeed. -/
def recordOkB (od : String) (env : Env) (f : File) : Bool :=
  (env.mkdirErr (filepathDir (filepathJoin od f.name))).isNone &&
  (env.writeErr (filepathJoin od f.name)).isNone

/-- The one message the loop prints for record number i. -/
def recordMsg (od : String) (env : Env) (i : Nat) (f : File) : Msg :=
  let fullPath := filepathJoin od f.name
  match env.mkdirErr (filepathDir fullPath) with
  | some e => Msg.dirError f.name e
  | none =>
    match env.writeErr fullPath with
    | some e => Msg.writeError f.name e
    | none => Msg.fileWritten (i + 1) f.name fullPath

def recordMsgs (od : String) (env : Env) : Nat → List File → List Msg
  | _, [] => []
  | i, f :: rest => recordMsg od env i f :: recordMsgs od env (i + 1) rest

/-- The messages of a run with no I/O failures. -/
def successMsgs (od : String) : Nat → List File → List Msg
  | _, [] => []
  | i, f :: rest =>
    Msg.fileWritten (i + 1) f.name (filepathJoin od f.name) :: successMsgs od (i + 1) rest

/-- The effect of one loop iteration on the filesystem. -/
def applyRecord (od : String) (env : Env) (fs : FS) (f : File) : FS :=
  let fullPath := filepathJoin od f.name
  let dir := filepathDir fullPath
  match env.mkdirErr dir with
  | some _ => fs
  | none =>
    let fs1 := fsMkdirAll fs dir
    match env.writeErr fullPath with
    | some _ => fs1
    | none => fsWrite fs1 fullPath f.code

/-! ## Lemmas about trimming -/

theorem dropWhile_append_all {p : Char → Bool} (w l : List Char)
    (h : ∀ c ∈ w, p c = true) : (w ++ l).dropWhile p = l.dropWhile p := by
  induction w with
  | nil => rfl
  | cons c w ih =>
    rw [List.cons_append, List.dropWhile_cons_of_pos (h c (List.mem_cons_self c w))]
    exact ih (fun x hx => h x (List.mem_cons_of_mem _ hx))

theorem dropWhile_append_of_ne_nil {p : Char → Bool} (l w : List Char)
    (h : l.dropWhile p ≠ []) : (l ++ w).dropWhile p = l.dropWhile p ++ w := by
  induction l with
  | nil => simp [List.dropWhile] at h
  | cons c l ih =>
    by_cases hc : p c
    · rw [List.cons_append, List.dropWhile_cons_of_pos hc,
        List.dropWhile_cons_of_pos hc] at *
      exact ih (by simpa [List.dropWhile_cons_of_pos hc] using h)
    · rw [List.cons_append, List.dropWhile_cons_of_neg hc, List.dropWhile_cons_of_neg hc,
        List.cons_append]

theorem dropWhile_append_nil {p : Char → Bool} (l w : List Char)
    (hl : l.dropWhile p = []) (hw : ∀ c ∈ w, p c = true) :
    (l ++ w).dropWhile p = [] := by
  have hall : ∀ c ∈ l, p c = true := List.dropWhile_eq_nil_iff.mp hl
  rw [List.dropWhile_eq_nil_iff]
  intro c hc
  rcases List.mem_append.mp hc with h | h
  · exact hall c h
  · exact hw c h

theorem trimRightList_append_all (l w : List Char) (h : ∀ c ∈ w, goIsSpace c = true) :
    trimRightList (l ++ w) = trimRightList l := by
  unfold trimRightList
  rw [List.reverse_append, dropWhile_append_all]
  intro c hc
  exact h c (List.mem_reverse.mp hc)

/-- Trimming ignores all-white-space padding on both sides. -/
theorem goTrimSpace_pad (w1 t w2 : List Char)
    (h1 : ∀ c ∈ w1, goIsSpace c = true) (h2 : ∀ c ∈ w2, goIsSpace c = true) :
    goTrimSpace (String.mk (w1 ++ t ++ w2)) = goTrimSpace (String.mk t) := by
  unfold goTrimSpace
  show String.mk (trimRightList ((w1 ++ t ++ w2).dropWhile goIsSpace)) = _
  rw [List.append_assoc, dropWhile_append_all w1 (t ++ w2) h1]
  by_cases hnil : t.dropWhile goIsSpace = []
  · rw [dropWhile_append_nil t w2 hnil h2, hnil]
  · rw [dropWhile_append_of_ne_nil t w2 hnil, trimRightList_append_all _ w2 h2]

/-! ## Lemmas about the write loop and the filesystem -/

theorem lookupAssoc_updateAssoc (l : List (String × String)) (q c p) :
    lookupAssoc (updateAssoc l q c) p = if q = p then some c else lookupAssoc l p := by
  induction l with
  | nil => simp [lookupAssoc, updateAssoc]
  | cons kv rest ih =>
    obtain ⟨k, v⟩ := kv
    by_cases hk : k = q
    · subst hk
      by_cases hp : k = p <;> simp [updateAssoc, lookupAssoc, hp]
    · by_cases hp : k = p
      · subst hp
        have hq : ¬ q = k := fun h => hk h.symm
        simp [updateAssoc, lookupAssoc, hk, hq]
      · simp [updateAssoc, lookupAssoc, hk, hp, ih]

theorem fsLookup_fsWrite (fs : FS) (q c p) :
    fsLookup (fsWrite fs q c) p = if q = p then some c else fsLookup fs p := by
  unfold fsLookup fsWrite
  exact lookupAssoc_updateAssoc fs.files q c p

theorem fsLookup_fsMkdirAll (fs : FS) (d p) :
    fsLookup (fsMkdirAll fs d) p = fsLookup fs p := rfl

/-- One loop iteration through the lens of fsLookup. -/
theorem fsLookup_applyRecord (od : String) (env : Env) (fs : FS) (f : File) (p : String) :
    fsLookup (applyRecord od env fs f) p =
      if recordOkB od env f = true ∧ filepathJoin od f.name = p then some f.code
      else fsLookup fs p := by
  unfold applyRecord recordOkB
  cases hm : env.mkdirErr (filepathDir (filepathJoin od f.name)) with
  | some e => simp [hm]
  | none =>
    cases hw : env.writeErr (filepathJoin od f.name) with
    | some e => simp [hm, hw, fsLookup_fsMkdirAll]
    | none =>
      simp only [hm, hw]
      rw [fsLookup_fsWrite, fsLookup_fsMkdirAll]
      simp

/-- The loop equals a fold over the records together with one message per
record. -/
theorem writeRecords_eq (od : String) (env : Env) (rs : List File) :
    ∀ fs i, writeRecords od env fs i rs =
      (rs.foldl (applyRecord od env) fs, recordMsgs od env i rs) := by
  induction rs with
  | nil => intro fs i; rfl
  | cons f rest ih =>
    intro fs i
    rw [writeRecords, recordMsgs, recordMsg, List.foldl_cons, applyRecord]
    cases hm : env.mkdirErr (filepathDir (filepathJoin od f.name)) with
    | some e => simp only [ih]
    | none =>
      cases hw : env.writeErr (filepathJoin od f.name) with
      | some e => simp only [ih]
      | none => simp only [ih]

/-- After the fold, a path holds the code of the last record that targeted
it and succeeded; paths no successful record targeted are untouched. -/
theorem fsLookup_foldl (od : String) (env : Env) (rs : List File) (fs : FS) (p : String) :
    fsLookup (rs.foldl (applyRecord od env) fs) p =
      match rs.reverse.find?
          (fun f => recordOkB od env f && decide (filepathJoin od f.name = p)) with
      | some f => some f.code
      | none => fsLookup fs p := by
  induction rs using List.reverseRecOn with
  | nil => rfl
  | append_singleton l a ih =>
    rw [List.foldl_append, List.foldl_cons, List.foldl_nil, List.reverse_append,
      List.reverse_singleton, List.singleton_append, fsLookup_applyRecord, ih]
    by_cases hp : recordOkB od env a = true ∧ filepathJoin od a.name = p
    · rw [if_pos hp, List.find?_cons_of_pos]
      simp [hp.1, hp.2]
    · rw [if_neg hp, List.find?_cons_of_neg]
      simp only [Bool.and_eq_true, decide_eq_true_eq]
      exact hp

/-- With no I/O failures every record produces its confirmation message. -/
theorem recordMsgs_noFail (od : String) (env : Env) (hnf : noFailures env) :
    ∀ i rs, recordMsgs od env i rs = successMsgs od i rs := by
  intro i rs
  induction rs generalizing i with
  | nil => rfl
  | cons f rest ih =>
    rw [recordMsgs, successMsgs, recordMsg, hnf.1, hnf.2, ih]

theorem writtenPaths_append (l1 l2 : List Msg) :
    writtenPaths (l1 ++ l2) = writtenPaths l1 ++ writtenPaths l2 :=
  List.filterMap_append l1 l2 writtenEntry

theorem writtenPaths_successMsgs (od : String) :
    ∀ i rs, writtenPaths (successMsgs od i rs) =
      rs.map (fun f => (f.name, filepathJoin od f.name)) := by
  intro i rs
  induction rs generalizing i with
  | nil => rfl
  | cons f rest ih =>
    rw [successMsgs]
    show writtenPaths (Msg.fileWritten (i + 1) f.name (filepathJoin od f.name)
      :: successMsgs od (i + 1) rest) = _
    rw [writtenPaths, List.filterMap_cons]
    show (f.name, filepathJoin od f.name) :: writtenPaths (successMsgs od (i + 1) rest) = _
    rw [ih, List.map_cons]

/-- In any environment, the files confirmed written are exactly the records
whose own two operations succeed, in array order. -/
theorem writtenPaths_recordMsgs (od : String) (env : Env) :
    ∀ i rs, writtenPaths (recordMsgs od env i rs) =
      (rs.filter (recordOkB od env)).map (fun f => (f.name, filepathJoin od f.name)) := by
  intro i rs
  induction rs generalizing i with
  | nil => rfl
  | cons f rest ih =>
    rw [recordMsgs, recordMsg]
    cases hm : env.mkdirErr (filepathDir (filepathJoin od f.name)) with
    | some e =>
      rw [writtenPaths, List.filterMap_cons]
      show writtenPaths (recordMsgs od env (i + 1) rest) = _
      rw [ih, List.filter_cons]
      have : recordOkB od env f = false := by simp [recordOkB, hm]
      rw [this]
      simp
    | none =>
      cases hw : env.writeErr (filepathJoin od f.name) with
      | some e =>
        rw [writtenPaths, List.filterMap_cons]
        show writtenPaths (recordMsgs od env (i + 1) rest) = _
        rw [ih, List.filter_cons]
        have : recordOkB od env f = false := by simp [recordOkB, hm, hw]
        rw [this]
        simp
      | none =>
        rw [writtenPaths, List.filterMap_cons]
        show (f.name, filepathJoin od f.name) :: writtenPaths (recordMsgs od env (i + 1) rest) = _
        rw [ih, List.filter_cons]
        have : recordOkB od env f = true := by simp [recordOkB, hm, hw]
        rw [this]
        simp

/-! ## Lemmas about the directory set -/

theorem dirs_sub_applyRecord (od : String) (env : Env) (fs : FS) (f : File) :
    fs.dirs ⊆ (applyRecord od env fs f).dirs := by
  unfold applyRecord
  cases hm : env.mkdirErr (filepathDir (filepathJoin od f.name)) with
  | some e =>
    simp only [hm]
    exact fun d hd => hd
  | none =>
    cases hw : env.writeErr (filepathJoin od f.name) with
    | some e =>
      simp only [hm, hw]
      exact fun d hd => List.mem_append_right _ hd
    | none =>
      simp only [hm, hw]
      exact fun d hd => List.mem_append_right _ hd

theorem dirs_sub_foldl (od : String) (env : Env) (rs : List File) :
    ∀ fs : FS, fs.dirs ⊆ (rs.foldl (applyRecord od env) fs).dirs := by
  induction rs with
  | nil => exact fun fs d hd => hd
  | cons f rest ih =>
    intro fs
    rw [List.foldl_cons]
    exact fun d hd => ih (applyRecord od env fs f) (dirs_sub_applyRecord od env fs f hd)

/-- With no I/O failures, after the fold the whole directory chain of every
record's target directory exists. -/
theorem dirs_after_foldl (od : String) (env : Env) (hnf : noFailures env) (rs : List File) :
    ∀ (fs : FS) (f : File), f ∈ rs →
      ∀ d ∈ dirChain (filepathDir (filepathJoin od f.name)),
        d ∈ (rs.foldl (applyRecord od env) fs).dirs := by
  induction rs with
  | nil => intro fs f hf; cases hf
  | cons g rest ih =>
    intro fs f hf d hd
    rw [List.foldl_cons]
    rcases List.mem_cons.mp hf with rfl | hf
    · apply dirs_sub_foldl od env rest
      show d ∈ (applyRecord od env fs f).dirs
      unfold applyRecord
      simp only [hnf.1, hnf.2]
      exact List.mem_append_left _ hd
    · exact ih (applyRecord od env fs g) f hf d hd

/-! ## Lemmas about decoding -/

theorem decodeList_length (xs : List JValue) (files : List File)
    (h : decodeList xs = some files) : files.length = xs.length := by
  induction xs generalizing files with
  | nil =>
    rw [decodeList] at h
    cases h
    rfl
  | cons x rest ih =>
    rw [decodeList] at h
    cases hx : decodeFile x with
    | none => rw [hx] at h; cases h
    | some f =>
      rw [hx] at h
      cases hr : decodeList rest with
      | none => rw [hr] at h; cases h
      | some fs2 =>
        rw [hr] at h
        cases h
        simp [ih fs2 hr]

theorem decodeList_get (xs : List JValue) (files : List File)
    (h : decodeList xs = some files) :
    ∀ i (h1 : i < xs.length) (h2 : i < files.length),
      decodeFile (xs.get ⟨i, h1⟩) = some (files.get ⟨i, h2⟩) := by
  induction xs generalizing files with
  | nil => intro i h1; cases (Nat.not_lt_zero i) h1
  | cons x rest ih =>
    rw [decodeList] at h
    cases hx : decodeFile x with
    | none => rw [hx] at h; cases h
    | some f =>
      rw [hx] at h
      cases hr : decodeList rest with
      | none => rw [hr] at h; cases h
      | some fs2 =>
        rw [hr] at h
        cases h
        intro i h1 h2
        cases i with
        | zero => exact hx
        | succ j =>
          exact ih fs2 hr j (Nat.lt_of_succ_lt_succ h1) (Nat.lt_of_succ_lt_succ h2)

theorem decodeList_isSome (xs : List JValue)
    (h : ∀ x ∈ xs, (decodeFile x).isSome = true) : (decodeList xs).isSome = true := by
  induction xs with
  | nil => rfl
  | cons x rest ih =>
    rw [decodeList]
    cases hx : decodeFile x with
    | none =>
      have := h x (List.mem_cons_self x rest)
      rw [hx] at this
      cases this
    | some f =>
      have hrest := ih (fun y hy => h y (List.mem_cons_of_mem _ hy))
      cases hr : decodeList rest with
      | none => rw [hr] at hrest; cases hrest
      | some fs2 => rfl

theorem decodeFields_cons (k : String) (v : JValue) (rest : List (String × JValue)) (acc : File) :
    decodeFields ((k, v) :: rest) acc =
      match keyMatches k "file_name", keyMatches k "source_code", v with
      | true, _, .jstr s => decodeFields rest { acc with name := s }
      | true, _, .jnull => decodeFields rest acc
      | true, _, _ => none
      | false, true, .jstr s => decodeFields rest { acc with code := s }
      | false, true, .jnull => decodeFields rest acc
      | false, true, _ => none
      | false, false, _ => decodeFields rest acc := rfl

/-- If no member key matches source_code, decoding leaves the code field of
the accumulator unchanged. -/
theorem decodeFields_code_missing (fl : List (String × JValue)) :
    ∀ (acc f : File), (∀ kv ∈ fl, keyMatches kv.1 "source_code" = false) →
      decodeFields fl acc = some f → f.code = acc.code := by
  induction fl with
  | nil =>
    intro acc f _ h
    rw [decodeFields] at h
    cases h
    rfl
  | cons kv rest ih =>
    intro acc f hmiss h
    obtain ⟨k, v⟩ := kv
    have hk : keyMatches k "source_code" = false := hmiss (k, v) (List.mem_cons_self _ _)
    have htail : ∀ kv ∈ rest, keyMatches kv.1 "source_code" = false :=
      fun kv hkv => hmiss kv (List.mem_cons_of_mem _ hkv)
    rw [decodeFields_cons, hk] at h
    cases hn : keyMatches k "file_name" with
    | true =>
      rw [hn] at h
      cases v with
      | jstr s => exact ih { acc with name := s } f htail h
      | jnull => exact ih acc f htail h
      | jbool b => cases h
      | jnum raw => cases h
      | jarr elems => cases h
      | jobj fields => cases h
    | false =>
      rw [hn] at h
      exact ih acc f htail h

/-! ## The materializer on a successful parse -/

theorem materialize_some (od : String) (env : Env) (fs : FS) (t : String)
    (files : List File) (h : goUnmarshalFiles (goTrimSpace t) = some files)
    (hout : env.mkdirErr od = none) :
    materialize od env fs t =
      (files.foldl (applyRecord od env) (fsMkdirAll fs od),
       Msg.parsedCount files.length ::
         (recordMsgs od env 0 files ++ [Msg.allWritten od])) := by
  rw [materialize, h, materializeParsed, hout]
  simp only [writeRecords_eq]

theorem materialize_none (od : String) (env : Env) (fs : FS) (t : String)
    (h : goUnmarshalFiles (goTrimSpace t) = none) :
    materialize od env fs t = (fs, []) := by
  rw [materialize, h, materializeParsed]

/-- Shared helper: on a successful parse with no I/O failures the written
files are exactly the parsed records, in array order. -/
theorem writtenPaths_materialize (od : String) (env : Env) (fs : FS) (t : String)
    (files : List File) (h : goUnmarshalFiles (goTrimSpace t) = some files)
    (hnf : noFailures env) :
    writtenPaths (materialize od env fs t).2 =
      files.map (fun f => (f.name, filepathJoin od f.name)) := by
  rw [materialize_some od env fs t files h (hnf.1 od)]
  show writtenPaths (Msg.parsedCount files.length ::
    (recordMsgs od env 0 files ++ [Msg.allWritten od])) = _
  rw [writtenPaths, List.filterMap_cons]
  show writtenPaths (recordMsgs od env 0 files ++ [Msg.allWritten od]) = _
  rw [writtenPaths_append, recordMsgs_noFail od env hnf, writtenPaths_successMsgs]
  show _ ++ writtenPaths [Msg.allWritten od] = _
  rw [show writtenPaths [Msg.allWritten od] = ([] : List (String × String)) from rfl,
    List.append_nil]

/-! ## Clean relative names: the "unique, non-traversal relative name"
hypothesis of the specification, made precise: every separator-delimited
segment is nonempty and neither dot nor dotdot. On such names (and such an
output directory) filepath.Join is plain concatenation with a separator,
so distinct names give distinct target paths. -/

def goodSeg (s : List Char) : Prop :=
  s ≠ [] ∧ s ≠ ['.'] ∧ s ≠ ['.', '.'] ∧ '/' ∉ s

instance (s : List Char) : Decidable (goodSeg s) := by
  unfold goodSeg
  infer_instance

/-- A non-traversal relative path: nonempty, no leading or doubled or
trailing separator, and no dot or dotdot segment. -/
def cleanRelName (n : String) : Prop :=
  ∀ s ∈ splitSlash n.data, goodSeg s

instance (n : String) : Decidable (cleanRelName n) := by
  unfold cleanRelName
  infer_instance

theorem splitSlashAux_ne_nil (l : List Char) : ∀ acc, splitSlashAux acc l ≠ [] := by
  induction l with
  | nil => intro acc h; cases h
  | cons c rest ih =>
    intro acc
    rw [splitSlashAux]
    by_cases hc : c = '/'
    · rw [if_pos hc]
      intro h
      cases h
    · rw [if_neg hc]
      exact ih _

theorem joinSegs_cons (p : List Char) (ps : List (List Char)) (h : ps ≠ []) :
    joinSegs (p :: ps) = p ++ '/' :: joinSegs ps := by
  cases ps with
  | nil => cases h rfl
  | cons q qs => rfl

theorem joinSegs_singleton (p : List Char) : joinSegs [p] = p := rfl

theorem splitSlashAux_append (s : List Char) (hs : '/' ∉ s) :
    ∀ (acc rest : List Char), splitSlashAux acc (s ++ rest) = splitSlashAux (s.reverse ++ acc) rest := by
  induction s with
  | nil => intro acc rest; rfl
  | cons c s ih =>
    intro acc rest
    have hc : ¬ c = '/' := fun h => hs (h ▸ List.mem_cons_self c s)
    rw [List.cons_append, splitSlashAux, if_neg hc,
      ih (fun h => hs (List.mem_cons_of_mem c h)) (c :: acc) rest,
      List.reverse_cons, List.append_assoc, List.singleton_append]

/-- Splitting recovers the segments of a join of separator-free nonempty
segments. -/
theorem splitSlash_joinSegs (segs : List (List Char)) (hne : segs ≠ [])
    (hgood : ∀ s ∈ segs, goodSeg s) : splitSlash (joinSegs segs) = segs := by
  induction segs with
  | nil => cases hne rfl
  | cons p ps ih =>
    have hp : goodSeg p := hgood p (List.mem_cons_self p ps)
    rcases ps with _ | ⟨q, qs⟩
    · show splitSlashAux [] (joinSegs [p]) = [p]
      rw [joinSegs_singleton]
      have h1 := splitSlashAux_append p hp.2.2.2 [] []
      rw [List.append_nil] at h1
      rw [h1, splitSlashAux, List.append_nil, List.reverse_reverse]
    · have hps2 : (q :: qs : List (List Char)) ≠ [] := by intro h; cases h
      rw [joinSegs_cons p (q :: qs) hps2]
      show splitSlashAux [] (p ++ '/' :: joinSegs (q :: qs)) = p :: q :: qs
      rw [splitSlashAux_append p hp.2.2.2 [] ('/' :: joinSegs (q :: qs)),
        splitSlashAux, if_pos rfl, List.append_nil, List.reverse_reverse]
      show p :: splitSlash (joinSegs (q :: qs)) = p :: q :: qs
      rw [ih hps2 (fun s hs => hgood s (List.mem_cons_of_mem p hs))]

theorem cleanSegs_cons (rooted : Bool) (acc : List (List Char)) (p : List Char)
    (ps : List (List Char)) :
    cleanSegs rooted acc (p :: ps) =
      if p = [] ∨ p = ['.'] then cleanSegs rooted acc ps
      else if p = ['.', '.'] then
        match acc with
        | [] => if rooted then cleanSegs rooted [] ps else cleanSegs rooted [['.', '.']] ps
        | a :: rest =>
          if a = ['.', '.'] then cleanSegs rooted (p :: acc) ps
          else cleanSegs rooted rest ps
      else cleanSegs rooted (p :: acc) ps := rfl

/-- The element loop is the identity on good segments. -/
theorem cleanSegs_good (segs : List (List Char)) (hgood : ∀ s ∈ segs, goodSeg s) :
    ∀ (rooted : Bool) (acc : List (List Char)),
      cleanSegs rooted acc segs = acc.reverse ++ segs := by
  induction segs with
  | nil => intro rooted acc; rw [cleanSegs, List.append_nil]
  | cons p ps ih =>
    intro rooted acc
    have hp : goodSeg p := hgood p (List.mem_cons_self p ps)
    rw [cleanSegs_cons, if_neg (by simp [hp.1, hp.2.1]), if_neg (by simp [hp.2.2.1]),
      ih (fun s hs => hgood s (List.mem_cons_of_mem p hs)) rooted (p :: acc),
      List.reverse_cons, List.append_assoc, List.singleton_append]

theorem joinSegs_head_not_sep (segs : List (List Char)) (hne : segs ≠ [])
    (hgood : ∀ s ∈ segs, goodSeg s) :
    ∃ c cs, joinSegs segs = c :: cs ∧ ¬ c = '/' := by
  rcases segs with _ | ⟨p, ps⟩
  · cases hne rfl
  · have hp : goodSeg p := hgood p (List.mem_cons_self p ps)
    rcases p with _ | ⟨c, cs⟩
    · exact absurd rfl hp.1
    · have hc : ¬ c = '/' := fun h => hp.2.2.2 (by
        rw [← h]
        exact List.mem_cons_self c cs)
      rcases ps with _ | ⟨q, qs⟩
      · exact ⟨c, cs, by rw [joinSegs_singleton], hc⟩
      · refine ⟨c, cs ++ '/' :: joinSegs (q :: qs), ?_, hc⟩
        rw [joinSegs_cons (c :: cs) (q :: qs) (by intro h; cases h), List.cons_append]

/-- filepath.Clean is the identity on joins of good segments. -/
theorem filepathCleanL_joinSegs (segs : List (List Char)) (hne : segs ≠ [])
    (hgood : ∀ s ∈ segs, goodSeg s) :
    filepathCleanL (joinSegs segs) = joinSegs segs := by
  obtain ⟨c, cs, hj, hc⟩ := joinSegs_head_not_sep segs hne hgood
  rw [hj, filepathCleanL]
  have hsplit : splitSlash (c :: cs) = segs := hj ▸ splitSlash_joinSegs segs hne hgood
  rw [hsplit, if_neg (by simpa using hc)]
  rw [cleanSegs_good segs hgood, List.reverse_nil, List.nil_append]
  rw [if_neg (by simpa using hne), ← hj]

/-- Splitting then joining is the identity on every path. -/
theorem joinSegs_splitSlashAux (l : List Char) :
    ∀ acc, joinSegs (splitSlashAux acc l) = acc.reverse ++ l := by
  induction l with
  | nil =>
    intro acc
    rw [splitSlashAux, joinSegs_singleton, List.append_nil]
  | cons c rest ih =>
    intro acc
    rw [splitSlashAux]
    by_cases hc : c = '/'
    · rw [if_pos hc, joinSegs_cons _ _ (splitSlashAux_ne_nil rest []), ih [],
        List.reverse_nil, List.nil_append, hc]
    · rw [if_neg hc, ih (c :: acc), List.reverse_cons, List.append_assoc,
        List.singleton_append]

theorem joinSegs_splitSlash (l : List Char) : joinSegs (splitSlash l) = l := by
  rw [splitSlash, joinSegs_splitSlashAux, List.reverse_nil, List.nil_append]

theorem splitSlash_ne_nil (l : List Char) : splitSlash l ≠ [] :=
  splitSlashAux_ne_nil l []

/-- Two nonempty segment lists join across a separator. -/
theorem joinSegs_append (sa sb : List (List Char)) (ha : sa ≠ []) (hb : sb ≠ []) :
    joinSegs (sa ++ sb) = joinSegs sa ++ '/' :: joinSegs sb := by
  induction sa with
  | nil => cases ha rfl
  | cons p ps ih =>
    rcases ps with _ | ⟨q, qs⟩
    · rw [List.cons_append, List.nil_append, joinSegs_cons p sb hb, joinSegs_singleton]
    · have hps2 : (q :: qs : List (List Char)) ≠ [] := by intro h; cases h
      rw [List.cons_append, joinSegs_cons p ((q :: qs) ++ sb) (by
          intro h
          exact hps2 (List.append_eq_nil.mp h).1),
        ih hps2, joinSegs_cons p (q :: qs) hps2]
      simp [List.append_assoc]

/-- On clean relative names (and output directory), Join is concatenation
with a separator: Clean does not rewrite anything. -/
theorem filepathJoin_cleanRel (od n : String) (hod : cleanRelName od)
    (hn : cleanRelName n) :
    filepathJoin od n = String.mk (od.data ++ '/' :: n.data) := by
  have hodne : od.data ≠ [] := by
    intro h
    have := hod [] (by
      rw [h]
      show [] ∈ splitSlashAux [] []
      rw [splitSlashAux]
      exact List.mem_singleton.mpr rfl)
    exact this.1 rfl
  have hnne : n.data ≠ [] := by
    intro h
    have := hn [] (by
      rw [h]
      show [] ∈ splitSlashAux [] []
      rw [splitSlashAux]
      exact List.mem_singleton.mpr rfl)
    exact this.1 rfl
  have hcomb : od.data ++ '/' :: n.data = joinSegs (splitSlash od.data ++ splitSlash n.data) := by
    rw [joinSegs_append _ _ (splitSlash_ne_nil od.data) (splitSlash_ne_nil n.data),
      joinSegs_splitSlash, joinSegs_splitSlash]
  have hgood : ∀ s ∈ splitSlash od.data ++ splitSlash n.data, goodSeg s := by
    intro s hs
    rcases List.mem_append.mp hs with h | h
    · exact hod s h
    · exact hn s h
  rw [filepathJoin]
  cases hda : od.data with
  | nil => exact absurd hda hodne
  | cons c cs =>
    cases hdb : n.data with
    | nil => exact absurd hdb hnne
    | cons d ds =>
      show String.mk (filepathCleanL ((c :: cs) ++ '/' :: (d :: ds))) = _
      rw [← hda, ← hdb, hcomb,
        filepathCleanL_joinSegs _ (by
          intro h
          exact splitSlash_ne_nil od.data (List.append_eq_nil.mp h).1) hgood]

/-- Distinct clean relative names have distinct target paths. -/
theorem filepathJoin_inj (od n1 n2 : String) (hod : cleanRelName od)
    (h1 : cleanRelName n1) (h2 : cleanRelName n2)
    (heq : filepathJoin od n1 = filepathJoin od n2) : n1 = n2 := by
  rw [filepathJoin_cleanRel od n1 hod h1, filepathJoin_cleanRel od n2 hod h2] at heq
  have hl : od.data ++ '/' :: n1.data = od.data ++ '/' :: n2.data := by
    have := congrArg String.data heq
    exact this
  have hdata : n1.data = n2.data := by
    have h3 := List.append_cancel_left hl
    exact List.tail_eq_of_cons_eq h3
  show n1 = n2
  cases n1 with
  | mk d1 =>
    cases n2 with
    | mk d2 =>
      show String.mk d1 = String.mk d2
      rw [show d1 = d2 from hdata]

/-! ## Fixtures for the concrete witnesses -/

/-- An environment with a working filesystem and an unused generator. -/
def envOk : Env :=
  { clientErr := none, stdinLine := "",
    genResult := fun _ => Except.error "unused",
    mkdirErr := fun _ => none, writeErr := fun _ => none }

def fs0 : FS := { files := [], dirs := [] }

theorem envOk_noFailures : noFailures envOk := ⟨fun _ => rfl, fun _ => rfl⟩

/-! ## The claims -/

/-- Claim C1: for every response text that unmarshals (after trimming) to a
JSON array of N FileRecords whose names are pairwise distinct clean
relative names (non-traversal: no dotdot, dot or empty segment, no leading
separator) — and an output directory of the same shape — materialization
with no I/O failure writes exactly N files in array order: the log reports
the attempted count N and then one confirmation per record, numbered in
array order; the content stored at each record's joined path is exactly
that record's code, whether or not the path existed before; and every path
outside the N target paths is untouched. -/
theorem C1_writes_every_record (t od : String) (env : Env) (fs : FS) (files : List File)
    (hparse : goUnmarshalFiles (goTrimSpace t) = some files)
    (hnf : noFailures env)
    (hod : cleanRelName od)
    (hnames : ∀ f ∈ files, cleanRelName f.name)
    (huniq : (files.map File.name).Nodup) :
    (materialize od env fs t).2 =
        Msg.parsedCount files.length :: (successMsgs od 0 files ++ [Msg.allWritten od]) ∧
    (∀ f ∈ files, fsLookup (materialize od env fs t).1 (filepathJoin od f.name) = some f.code) ∧
    (∀ p : String, p ∉ files.map (fun f => filepathJoin od f.name) →
      fsLookup (materialize od env fs t).1 p = fsLookup fs p) := by
  have hpaths : (files.map (fun f => filepathJoin od f.name)).Nodup := by
    have hmm : files.map (fun f => filepathJoin od f.name) =
        (files.map File.name).map (fun n => filepathJoin od n) := by
      rw [List.map_map]
      rfl
    rw [hmm]
    refine List.Nodup.map_on ?_ huniq
    intro x hx y hy hxy
    rcases List.mem_map.mp hx with ⟨fx, hfx, hfx2⟩
    rcases List.mem_map.mp hy with ⟨fy, hfy, hfy2⟩
    exact filepathJoin_inj od x y hod (hfx2 ▸ hnames fx hfx) (hfy2 ▸ hnames fy hfy) hxy
  have hmat := materialize_some od env fs t files hparse (hnf.1 od)
  refine ⟨?_, ?_, ?_⟩
  · rw [hmat, recordMsgs_noFail od env hnf]
  · intro f hf
    rw [hmat]
    show fsLookup (files.foldl (applyRecord od env) (fsMkdirAll fs od))
      (filepathJoin od f.name) = some f.code
    rw [fsLookup_foldl]
    have hsome : (files.reverse.find? (fun g => recordOkB od env g &&
        decide (filepathJoin od g.name = filepathJoin od f.name))).isSome = true := by
      rw [List.find?_isSome]
      refine ⟨f, List.mem_reverse.mpr hf, ?_⟩
      simp [recordOkB, hnf.1, hnf.2]
    obtain ⟨g, hg⟩ := Option.isSome_iff_exists.mp hsome
    rw [hg]
    have hgmem : g ∈ files := List.mem_reverse.mp (List.mem_of_find?_eq_some hg)
    have hgp := List.find?_some hg
    simp only [Bool.and_eq_true, decide_eq_true_eq] at hgp
    have hgf : g = f := List.inj_on_of_nodup_map hpaths hgmem hf hgp.2
    rw [hgf]
  · intro p hp
    rw [hmat]
    show fsLookup (files.foldl (applyRecord od env) (fsMkdirAll fs od)) p = fsLookup fs p
    rw [fsLookup_foldl]
    have hnone : files.reverse.find?
        (fun g => recordOkB od env g && decide (filepathJoin od g.name = p)) = none := by
      rw [List.find?_eq_none]
      intro g hg
      simp only [Bool.and_eq_true, decide_eq_true_eq, not_and]
      intro _ hjoin
      exact hp (hjoin ▸ List.mem_map_of_mem _ (List.mem_reverse.mp hg))
    rw [hnone, fsLookup_fsMkdirAll]

/-- Claim C1 witness at a concrete input: two records, both written. -/
theorem C1_writes_every_record_witness :
    fsLookup (materialize "output" envOk fs0
      "[\x7b\"file_name\":\"a.txt\",\"source_code\":\"A\"\x7d,\x7b\"file_name\":\"sub/b.txt\",\"source_code\":\"B\"\x7d]").1
      "output/sub/b.txt" = some "B" := by
  have h := C1_writes_every_record
    "[\x7b\"file_name\":\"a.txt\",\"source_code\":\"A\"\x7d,\x7b\"file_name\":\"sub/b.txt\",\"source_code\":\"B\"\x7d]"
    "output" envOk fs0
    [{ name := "a.txt", code := "A" }, { name := "sub/b.txt", code := "B" }]
    (by rfl) envOk_noFailures (by decide) (by decide) (by decide)
  exact h.2.1 { name := "sub/b.txt", code := "B" } (by decide)

/-- Claim C2: the set of records written is exactly the set parsed: when
unmarshalling of the trimmed text fails the filesystem (files and
directories alike) is left exactly as it was and nothing is printed (no
distinct error); when it succeeds (absent I/O failure) the files confirmed
written are exactly the parsed records. -/
theorem C2_all_or_nothing (t od : String) (env : Env) (fs : FS) :
    (goUnmarshalFiles (goTrimSpace t) = none → materialize od env fs t = (fs, [])) ∧
    (∀ files : List File, goUnmarshalFiles (goTrimSpace t) = some files → noFailures env →
      writtenPaths (materialize od env fs t).2 =
        files.map (fun f => (f.name, filepathJoin od f.name))) := by
  constructor
  · intro h
    exact materialize_none od env fs t h
  · intro files h hnf
    exact writtenPaths_materialize od env fs t files h hnf

/-- Claim C2 witness: a malformed text leaves the filesystem untouched, a
valid one writes exactly the parsed record. -/
theorem C2_all_or_nothing_witness :
    materialize "output" envOk fs0 "oops not json" = (fs0, []) ∧
    writtenPaths (materialize "output" envOk fs0
      "[\x7b\"file_name\":\"w.txt\",\"source_code\":\"W\"\x7d]").2 =
      [("w.txt", "output/w.txt")] := by
  constructor
  · exact (C2_all_or_nothing "oops not json" "output" envOk fs0).1 rfl
  · have h := (C2_all_or_nothing "[\x7b\"file_name\":\"w.txt\",\"source_code\":\"W\"\x7d]"
      "output" envOk fs0).2 [{ name := "w.txt", code := "W" }] rfl envOk_noFailures
    rw [h]
    rfl

/-- Claim C3 counterexample: the claim says a record missing a required
field makes the parse fail and zero files get written; in fact
encoding/json does not enforce the schema's required list — the object
missing source_code unmarshals successfully with an empty code, and one
file (with empty content) is written. -/
theorem C3_counterexample_missing_field_parses :
    goUnmarshalFiles (goTrimSpace "[\x7b\"file_name\":\"a.txt\"\x7d]") =
        some [{ name := "a.txt", code := "" }] ∧
    fsLookup (materialize "output" envOk fs0 "[\x7b\"file_name\":\"a.txt\"\x7d]").1
        "output/a.txt" = some "" := by
  constructor
  · rfl
  · rfl

/-- Claim C3 (amended): for every response text that is a JSON array whose
elements all decode as FileRecords, an element missing a required field
does not fail the parse: unmarshalling succeeds, a missing source_code is
decoded as the empty string, and (absent I/O failure) the materializer
still writes one file per record — a record missing source_code is written
as an empty file — rather than writing zero files. -/
theorem C3_amended_missing_field_defaults (t od : String) (env : Env) (fs : FS)
    (xs : List JValue)
    (hp : jsonParse (goTrimSpace t) = some (JValue.jarr xs))
    (hwf : ∀ x ∈ xs, (decodeFile x).isSome = true) :
    ∃ files : List File, goUnmarshalFiles (goTrimSpace t) = some files ∧
      files.length = xs.length ∧
      (∀ (i : Nat) (h1 : i < xs.length) (h2 : i < files.length)
          (fl : List (String × JValue)),
        xs.get ⟨i, h1⟩ = JValue.jobj fl →
        (∀ kv ∈ fl, keyMatches kv.1 "source_code" = false) →
        (files.get ⟨i, h2⟩).code = "") ∧
      (noFailures env →
        writtenPaths (materialize od env fs t).2 =
          files.map (fun f => (f.name, filepathJoin od f.name))) := by
  have hsome := decodeList_isSome xs hwf
  obtain ⟨files, hfiles⟩ := Option.isSome_iff_exists.mp hsome
  have hun : goUnmarshalFiles (goTrimSpace t) = some files := by
    rw [goUnmarshalFiles, hp]
    exact hfiles
  refine ⟨files, hun, decodeList_length xs files hfiles, ?_, ?_⟩
  · intro i h1 h2 fl hobj hmiss
    have hdec := decodeList_get xs files hfiles i h1 h2
    rw [hobj] at hdec
    exact decodeFields_code_missing fl { name := "", code := "" }
      (files.get ⟨i, h2⟩) hmiss hdec
  · intro hnf
    exact writtenPaths_materialize od env fs t files hun hnf

/-- Claim C3 (amended) witness at the counterexample input. -/
theorem C3_amended_missing_field_defaults_witness :
    ∃ files : List File,
      goUnmarshalFiles (goTrimSpace "[\x7b\"file_name\":\"a.txt\"\x7d]") = some files ∧
      files.length = 1 := by
  obtain ⟨files, h1, h2, _, _⟩ := C3_amended_missing_field_defaults
    "[\x7b\"file_name\":\"a.txt\"\x7d]" "output" envOk fs0
    [JValue.jobj [("file_name", JValue.jstr "a.txt")]] rfl (by
      intro x hx
      rw [List.mem_singleton] at hx
      rw [hx]
      rfl)
  exact ⟨files, h1, by rw [h2]; rfl⟩

/-- Response fixture: a single candidate with a single text part. -/
def respText (s : String) : GenResponse :=
  { candidates := [{ content := { parts := [Part.text s] } }] }

/-- Environment fixture returning a text response. -/
def envText (s : String) : Env :=
  { clientErr := none, stdinLine := "",
    genResult := fun _ => Except.ok (respText s),
    mkdirErr := fun _ => none, writeErr := fun _ => none }

/-- Claim C4 (code bug): the -output flag is unusable. It is registered
only after the first flag.Parse call, so supplying it makes that call fail
with "flag provided but not defined: -output" and the process exits without
touching the filesystem; and since outputDir is the immediate dereference
of the fresh flag pointer, every run that does proceed writes under the
default "output" directory regardless. -/
theorem C4_output_flag_unusable :
    ((runMain ["-key", "k", "-output", "mydir"] envOk fs0).outcome = Outcome.flagExit ∧
     (runMain ["-key", "k", "-output", "mydir"] envOk fs0).log =
       [Msg.flagError "flag provided but not defined: -output"] ∧
     (runMain ["-key", "k", "-output", "mydir"] envOk fs0).fs = fs0) ∧
    (∀ (env : Env) (fs : FS) (s : String),
      env.clientErr = none →
      env.genResult (instructionFor env.stdinLine) = Except.ok (respText s) →
      (runMain ["-key", "k"] env fs).fs = (materialize "output" env fs s).1) := by
  constructor
  · exact ⟨rfl, rfl, rfl⟩
  · intro env fs s hc hg
    rw [runMain]
    rw [show parseFlagArgs ["key"] ["-key", "k"] = Except.ok [("key", "k")] from rfl]
    simp only []
    rw [if_neg (by decide : ¬ flagValue [("key", "k")] "key" "" = "")]
    rw [hc]
    simp only []
    rw [hg]
    simp only []
    rw [show firstPart (respText s) = some (Part.text s) from rfl]

/-- Claim C4 witness: a run that reaches materialization writes under the
default "output" directory. -/
theorem C4_output_flag_unusable_witness :
    (runMain ["-key", "k"]
      (envText "[\x7b\"file_name\":\"x.txt\",\"source_code\":\"X\"\x7d]") fs0).fs =
    (materialize "output"
      (envText "[\x7b\"file_name\":\"x.txt\",\"source_code\":\"X\"\x7d]") fs0
      "[\x7b\"file_name\":\"x.txt\",\"source_code\":\"X\"\x7d]").1 :=
  C4_output_flag_unusable.2
    (envText "[\x7b\"file_name\":\"x.txt\",\"source_code\":\"X\"\x7d]") fs0
    "[\x7b\"file_name\":\"x.txt\",\"source_code\":\"X\"\x7d]" rfl rfl

/-- Claim C5: the target path of every parsed record is exactly the join
of the output directory with the record's name — no restriction whatever
is placed on the name, so traversal segments such as dotdot are not
rejected (they are resolved lexically by Join's Clean, possibly escaping
the output directory, as the witness shows) — and after a failure-free run
the whole chain of parent directories of the target exists. -/
theorem C5_exact_join_and_parents (t od : String) (env : Env) (fs : FS)
    (files : List File) (f : File)
    (hparse : goUnmarshalFiles (goTrimSpace t) = some files)
    (hnf : noFailures env) (hf : f ∈ files) :
    (f.name, filepathJoin od f.name) ∈ writtenPaths (materialize od env fs t).2 ∧
    ∀ d ∈ dirChain (filepathDir (filepathJoin od f.name)),
      d ∈ (materialize od env fs t).1.dirs := by
  constructor
  · rw [writtenPaths_materialize od env fs t files hparse hnf]
    exact List.mem_map_of_mem _ hf
  · rw [materialize_some od env fs t files hparse (hnf.1 od)]
    exact dirs_after_foldl od env hnf files (fsMkdirAll fs od) f hf

/-- Claim C5 witness: a name with a dotdot segment is not rejected; the
record lands at Join("output", "../esc.txt") = "esc.txt", outside the
output directory. -/
theorem C5_exact_join_and_parents_witness :
    ("../esc.txt", "esc.txt") ∈ writtenPaths (materialize "output" envOk fs0
      "[\x7b\"file_name\":\"../esc.txt\",\"source_code\":\"E\"\x7d]").2 :=
  (C5_exact_join_and_parents
    "[\x7b\"file_name\":\"../esc.txt\",\"source_code\":\"E\"\x7d]"
    "output" envOk fs0 [{ name := "../esc.txt", code := "E" }]
    { name := "../esc.txt", code := "E" } rfl envOk_noFailures (by decide)).1

theorem recordMsgs_length (od : String) (env : Env) :
    ∀ (i : Nat) (rs : List File), (recordMsgs od env i rs).length = rs.length := by
  intro i rs
  induction rs generalizing i with
  | nil => rfl
  | cons f rest ih => rw [recordMsgs, List.length_cons, ih, List.length_cons]

/-- Claim C6: per-record I/O failure is non-fatal. Whatever the failure
pattern, once the array is parsed (and the output directory itself can be
created) the loop prints exactly one message per record — the error for a
failing record, the confirmation for a successful one — so the batch is
never aborted; and the files confirmed written are exactly the records
whose own directory creation and write succeed, in array order. -/
theorem C6_per_record_failure_nonfatal (t od : String) (env : Env) (fs : FS)
    (files : List File)
    (hparse : goUnmarshalFiles (goTrimSpace t) = some files)
    (hout : env.mkdirErr od = none) :
    (materialize od env fs t).2 =
        Msg.parsedCount files.length :: (recordMsgs od env 0 files ++ [Msg.allWritten od]) ∧
    (materialize od env fs t).2.length = files.length + 2 ∧
    writtenPaths (materialize od env fs t).2 =
      (files.filter (recordOkB od env)).map (fun f => (f.name, filepathJoin od f.name)) := by
  have hmat := materialize_some od env fs t files hparse hout
  refine ⟨by rw [hmat], ?_, ?_⟩
  · rw [hmat]
    show (Msg.parsedCount files.length ::
      (recordMsgs od env 0 files ++ [Msg.allWritten od])).length = _
    rw [List.length_cons, List.length_append, recordMsgs_length]
    rfl
  · rw [hmat]
    show writtenPaths (Msg.parsedCount files.length ::
      (recordMsgs od env 0 files ++ [Msg.allWritten od])) = _
    rw [writtenPaths, List.filterMap_cons]
    show writtenPaths (recordMsgs od env 0 files ++ [Msg.allWritten od]) = _
    rw [writtenPaths_append, writtenPaths_recordMsgs]
    show _ ++ writtenPaths [Msg.allWritten od] = _
    rw [show writtenPaths [Msg.allWritten od] = ([] : List (String × String)) from rfl,
      List.append_nil]

/-- Environment fixture for the C6 witness: creating "output/bad" fails,
everything else succeeds. -/
def envOneBad : Env :=
  { clientErr := none, stdinLine := "",
    genResult := fun _ => Except.error "unused",
    mkdirErr := fun p => if p = "output/bad" then some "permission denied" else none,
    writeErr := fun _ => none }

/-- Claim C6 witness: of three records the middle one's directory cannot be
created; the other two are still written and three per-record messages are
printed. -/
theorem C6_per_record_failure_nonfatal_witness :
    writtenPaths (materialize "output" envOneBad fs0
      "[\x7b\"file_name\":\"a.txt\",\"source_code\":\"A\"\x7d,\x7b\"file_name\":\"bad/x.txt\",\"source_code\":\"X\"\x7d,\x7b\"file_name\":\"b.txt\",\"source_code\":\"B\"\x7d]").2 =
      [("a.txt", "output/a.txt"), ("b.txt", "output/b.txt")] := by
  have h := C6_per_record_failure_nonfatal
    "[\x7b\"file_name\":\"a.txt\",\"source_code\":\"A\"\x7d,\x7b\"file_name\":\"bad/x.txt\",\"source_code\":\"X\"\x7d,\x7b\"file_name\":\"b.txt\",\"source_code\":\"B\"\x7d]"
    "output" envOneBad fs0
    [{ name := "a.txt", code := "A" }, { name := "bad/x.txt", code := "X" },
     { name := "b.txt", code := "B" }] rfl rfl
  rw [h.2.2]
  rfl

/-- Claim C7: trim equivalence. Padding any response text with leading and
trailing white space (in the sense of the TrimSpace the program applies)
changes nothing: the materializer parses and writes exactly the same files
with the same contents and prints the same messages. -/
theorem C7_trim_equivalence (w1 w2 t od : String) (env : Env) (fs : FS)
    (h1 : ∀ c ∈ w1.data, goIsSpace c = true) (h2 : ∀ c ∈ w2.data, goIsSpace c = true) :
    materialize od env fs (w1 ++ t ++ w2) = materialize od env fs t := by
  have htrim : goTrimSpace (w1 ++ t ++ w2) = goTrimSpace t := by
    have e1 : w1 ++ t ++ w2 = String.mk (w1.data ++ t.data ++ w2.data) := rfl
    have e2 : t = String.mk t.data := rfl
    rw [e1, goTrimSpace_pad w1.data t.data w2.data h1 h2, ← e2]
  rw [materialize, materialize, htrim]

/-- Claim C7 witness at a concrete padded input. -/
theorem C7_trim_equivalence_witness :
    materialize "output" envOk fs0
      (" \n" ++ "[\x7b\"file_name\":\"p.txt\",\"source_code\":\"P\"\x7d]" ++ "\t ") =
    materialize "output" envOk fs0
      "[\x7b\"file_name\":\"p.txt\",\"source_code\":\"P\"\x7d]" :=
  C7_trim_equivalence " \n" "\t "
    "[\x7b\"file_name\":\"p.txt\",\"source_code\":\"P\"\x7d]"
    "output" envOk fs0 (by decide) (by decide)

/-- Claim C8: last write wins. If the parsed array contains two records
with the same name — the earlier f1, the later f2 — and no record after f2
targets the same path, then after a failure-free run the content on disk
at that path is exactly the later record's code. -/
theorem C8_last_write_wins (t od : String) (env : Env) (fs : FS)
    (l1 l2 l3 : List File) (f1 f2 : File)
    (hparse : goUnmarshalFiles (goTrimSpace t) = some ((l1 ++ f1 :: l2) ++ f2 :: l3))
    (hnf : noFailures env)
    (_hname : f1.name = f2.name)
    (hlast : ∀ g ∈ l3, filepathJoin od g.name ≠ filepathJoin od f2.name) :
    fsLookup (materialize od env fs t).1 (filepathJoin od f2.name) = some f2.code := by
  rw [materialize_some od env fs t _ hparse (hnf.1 od)]
  show fsLookup (((l1 ++ f1 :: l2) ++ f2 :: l3).foldl (applyRecord od env)
    (fsMkdirAll fs od)) (filepathJoin od f2.name) = some f2.code
  rw [fsLookup_foldl]
  have hrev : ((l1 ++ f1 :: l2) ++ f2 :: l3).reverse =
      l3.reverse ++ f2 :: (l1 ++ f1 :: l2).reverse := by
    rw [List.reverse_append, List.reverse_cons, List.append_assoc, List.singleton_append]
  rw [hrev, List.find?_append]
  have hnone : l3.reverse.find? (fun g => recordOkB od env g &&
      decide (filepathJoin od g.name = filepathJoin od f2.name)) = none := by
    rw [List.find?_eq_none]
    intro g hg
    simp only [Bool.and_eq_true, decide_eq_true_eq, not_and]
    intro _ hj
    exact hlast g (List.mem_reverse.mp hg) hj
  rw [hnone, Option.none_or,
    List.find?_cons_of_pos _ (by simp [recordOkB, hnf.1, hnf.2])]

/-- Claim C8 witness: two records named dup.txt; the final content is the
second record's code. -/
theorem C8_last_write_wins_witness :
    fsLookup (materialize "output" envOk fs0
      "[\x7b\"file_name\":\"dup.txt\",\"source_code\":\"one\"\x7d,\x7b\"file_name\":\"dup.txt\",\"source_code\":\"two\"\x7d]").1
      "output/dup.txt" = some "two" :=
  C8_last_write_wins
    "[\x7b\"file_name\":\"dup.txt\",\"source_code\":\"one\"\x7d,\x7b\"file_name\":\"dup.txt\",\"source_code\":\"two\"\x7d]"
    "output" envOk fs0 [] [] [] { name := "dup.txt", code := "one" }
    { name := "dup.txt", code := "two" } rfl envOk_noFailures rfl
    (fun g hg => absurd hg (List.not_mem_nil g))

/-- Claim C9 (code bug): whenever the flag parser accepts the arguments
(in particular whenever no flag other than -key is supplied) and the key
value is empty or the flag absent, the program prints exactly the text
"API key is required" and stops — for every environment, so no client is
constructed, no generator call is made and no file or directory is
touched. But an invocation with -key absent that supplies the documented
-output flag instead dies inside flag parsing with "flag provided but not
defined: -output" and never prints the key message: the late registration
of -output breaks the claim as stated. -/
theorem C9_key_check (args : List String) (env : Env) (fs : FS)
    (assigns : List (String × String))
    (hargs : parseFlagArgs ["key"] args = Except.ok assigns)
    (hkey : flagValue assigns "key" "" = "") :
    (runMain args env fs =
      { fs := fs, log := [Msg.apiKeyRequired], outcome := Outcome.normal } ∧
     renderMsg Msg.apiKeyRequired = "API key is required") ∧
    (runMain ["-output", "out"] env fs).log =
      [Msg.flagError "flag provided but not defined: -output"] := by
  refine ⟨⟨?_, rfl⟩, rfl⟩
  rw [runMain, hargs]
  simp only []
  rw [if_pos hkey]

/-- Claim C9 witness: no arguments at all (key absent). -/
theorem C9_key_check_witness :
    runMain [] envOk fs0 =
      { fs := fs0, log := [Msg.apiKeyRequired], outcome := Outcome.normal } :=
  (C9_key_check [] envOk fs0 [] rfl rfl).1.1

/-- Claim C10: the first response part is read through an unchecked type
assertion to genai.Text. In every run that reaches the response (arguments
accepted, key nonempty, client constructed, generator returning a
response whose first candidate has a first part) where that first part is
not a Text value, the program crashes — after pretty-printing the
response — instead of reporting an error, leaving the filesystem
untouched: materialization is not total over response part shapes. -/
theorem C10_non_text_part_crashes (args : List String) (env : Env) (fs : FS)
    (assigns : List (String × String)) (resp : GenResponse) (p : Part)
    (hargs : parseFlagArgs ["key"] args = Except.ok assigns)
    (hkey : ¬ flagValue assigns "key" "" = "")
    (hclient : env.clientErr = none)
    (hgen : env.genResult (instructionFor env.stdinLine) = Except.ok resp)
    (hfirst : firstPart resp = some p)
    (hnottext : ∀ s, ¬ p = Part.text s) :
    (runMain args env fs).outcome = Outcome.crashed ∧ (runMain args env fs).fs = fs := by
  have h : runMain args env fs =
      { fs := fs, log := [Msg.promptCue, Msg.apiResponse (prettyPart p)],
        outcome := Outcome.crashed } := by
    rw [runMain, hargs]
    simp only []
    rw [if_neg hkey, hclient]
    simp only []
    rw [hgen]
    simp only []
    rw [hfirst]
    cases p with
    | text s => exact absurd rfl (hnottext s)
    | blob m d => rfl
    | functionCall n a => rfl
  rw [h]
  exact ⟨rfl, rfl⟩

/-- Environment fixture whose response part is a blob, not text. -/
def envBlob : Env :=
  { clientErr := none, stdinLine := "",
    genResult := fun _ => Except.ok
      { candidates := [{ content := { parts := [Part.blob "image/png" "QUJD"] } }] },
    mkdirErr := fun _ => none, writeErr := fun _ => none }

/-- Claim C10 witness: a blob response part crashes the run. -/
theorem C10_non_text_part_crashes_witness :
    (runMain ["-key", "k"] envBlob fs0).outcome = Outcome.crashed :=
  (C10_non_text_part_crashes ["-key", "k"] envBlob fs0 [("key", "k")]
    { candidates := [{ content := { parts := [Part.blob "image/png" "QUJD"] } }] }
    (Part.blob "image/png" "QUJD") rfl (by decide) rfl rfl rfl
    (fun s h => Part.noConfusion h)).1

end AC
